import Mathlib

/-!
Verification of the grafana-operator reconciler and the uiplugin config-map
hash of rhobs/monitoring-stack-operator.

The Go code is shallowly embedded: each reconciliation step becomes a pure
Lean function from an explicit environment (the responses the Kubernetes
client would give) to the list of writes the step issues together with its
`reconcileResult`.  Machine-level details (durations, hash arithmetic) use
`Nat` with explicit `% 2^32` where Go's `uint32` overflows.
-/

namespace GrafanaOperator

/-- Kubernetes API errors, as distinguished by the `errors.IsNotFound`,
`errors.IsAlreadyExists` and `errors.IsConflict` predicates the code calls.
`other code` stands for any further status error. -/
inductive KError where
  | notFound
  | alreadyExists
  | conflict
  | other (code : Nat)
deriving DecidableEq, Repr

/-- `errors.IsNotFound` on a non-nil error. -/
def isNotFound : KError → Bool
  | .notFound => true
  | _ => false

/-- `errors.IsAlreadyExists` on a non-nil error. -/
def isAlreadyExists : KError → Bool
  | .alreadyExists => true
  | _ => false

/-- `errors.IsConflict` on a non-nil error. -/
def isConflict : KError → Bool
  | .conflict => true
  | _ => false

/-- One nanosecond is the unit; `time.Second` in Go. -/
def second : Nat := 1000000000

/-- `ctrl.Result`: requeue instructions handed back to controller-runtime. -/
structure CtrlResult where
  Requeue : Bool := false
  RequeueAfter : Nat := 0
deriving DecidableEq, Repr

/-- The `reconcileResult` struct: an embedded `ctrl.Result`, the optional
error and the `stop` flag that halts the step pipeline. -/
structure reconcileResult where
  result : CtrlResult := {}
  err : Option KError := none
  stop : Bool := false
deriving DecidableEq, Repr

/-- `end()`: terminate the current loop without requeueing.  (`end` is a
Lean keyword, hence the prime.) -/
def end' : reconcileResult := { stop := true }

/-- `next()`: continue with the next step of the pipeline. -/
def next' : reconcileResult := { stop := false }

/-- `requeue(d, err)`: stop and requeue after `d`; an immediate requeue when
`d == 0`. -/
def requeue (d : Nat) (e : Option KError) : reconcileResult :=
  { result := { Requeue := decide (d = 0), RequeueAfter := d }
    err := e
    stop := true }

/-- `reconcileError(err)`: stop the pipeline with an error. -/
def reconcileError (e : Option KError) : reconcileResult :=
  { err := e, stop := true }

/-- `creationResult(err)`: outcome of a `Create` call — success ends the
loop, `AlreadyExists` is benign, anything else is an error. -/
def creationResult : Option KError → reconcileResult
  | none => end'
  | some e => if isAlreadyExists e then next' else reconcileError (some e)

/-- `updationResult(err)`: outcome of an `Update` call — success continues,
a conflict requeues after 2s without logging an error, anything else is an
error. -/
def updationResult : Option KError → reconcileResult
  | none => next'
  | some e => if isConflict e then requeue (2 * second) none else reconcileError (some e)

/-- Boolean form of the invariant "if `err` is set then `stop` is true". -/
def errStopInv (r : reconcileResult) : Bool := !r.err.isSome || r.stop

/-!
## The step pipeline

`Reconcile` runs the fixed list `[reconcileNamespace, reconcileOperatorGroup,
reconcileSubscription, approveInstallPlan, setGrafanaWatch, reconcileGrafana]`
in order and returns at the first result with `stop` set.  A step is embedded
as a function from the reconciler/cluster state to the new state and the
step's result; the loop itself is `runSteps`.
-/

/-- A `ReconcileFunc` together with its effect on the reconciler state. -/
def Step (σ : Type) := σ → σ × reconcileResult

/-- The `for _, reconciler := range reconcilers` loop in `Reconcile`:
run each step in order, returning the first result whose `stop` is set;
when no step stops, the loop falls through to `result(reconcileResult{})`. -/
def runSteps {σ : Type} : List (Step σ) → σ → σ × reconcileResult
  | [], s => (s, {})
  | f :: fs, s =>
    let out := f s
    if out.2.stop then out else runSteps fs out.1

/-- `Reconcile` itself: run the steps and hand `(r.Result, r.err)` back to
controller-runtime (the `result` closure). -/
def Reconcile {σ : Type} (steps : List (Step σ)) (s : σ) : σ × CtrlResult × Option KError :=
  let out := runSteps steps s
  (out.1, out.2.result, out.2.err)

/-- A step that performs no writes and returns a fixed result. -/
def constStep {σ : Type} (r : reconcileResult) : Step σ := fun s => (s, r)

/-- Spec-side description of the pipeline ("after each step, if its Result
has stop == true, halt immediately and return that Result; if all steps
return stop == false, return a final continue-nothing-to-report Result"):
the first stopping result, or the zero result.  Written from the spec's
words, to be compared with the loop in `Reconcile`. -/
def specPipelineResult (rs : List reconcileResult) : reconcileResult :=
  (rs.find? (fun r => r.stop)).getD {}

/-!
## `approveInstallPlan`

The step lists the install plans in the namespace, scans for the first plan
whose `Spec.ClusterServiceVersionNames[0]` equals the desired CSV and whose
`Status.BundleLookups` is non-empty, and approves it when unapproved.  The
indexing `[0]` panics in Go when the slice is empty, so the embedding of the
scan returns `Option`: `none` models the panic.
-/

/-- The pinned Grafana CSV, `grafana-operator.v4.1.0`. -/
def grafanaCSV : String := "grafana-operator.v4.1.0"

/-- The fields of `v1alpha1.InstallPlan` the step reads:
`Spec.ClusterServiceVersionNames`, `Spec.Approved` and
`Status.BundleLookups` (of which only emptiness is observed). -/
structure InstallPlan where
  name : String
  clusterServiceVersionNames : List String
  approved : Bool
  bundleLookups : List String
deriving DecidableEq, Repr

/-- How the scan loop in `approveInstallPlan` exits. -/
inductive ScanOutcome where
  | alreadyApproved (p : InstallPlan)
  | toApprove (p : InstallPlan)
  | noneFound
deriving DecidableEq, Repr

/-- The `for _, installPlan := range installPlans.Items` loop.  Each
iteration first evaluates `installPlan.Spec.ClusterServiceVersionNames[0]`
(panic — `none` — when the slice is empty), skips plans whose first CSV
differs from `grafanaCSV` or whose `BundleLookups` is empty, returns
`next()` at an already-approved match, and otherwise picks the plan. -/
def scanPlans : List InstallPlan → Option ScanOutcome
  | [] => some .noneFound
  | p :: ps =>
    match p.clusterServiceVersionNames with
    | [] => none
    | csv :: _ =>
      if csv ≠ grafanaCSV ∨ p.bundleLookups.length = 0 then
        scanPlans ps
      else if p.approved then
        some (.alreadyApproved p)
      else
        some (.toApprove p)

/-- What a step did: the writes (here: plans sent to `Update`, with
`Spec.Approved` already flipped) and its result. -/
structure StepOutcome where
  updates : List InstallPlan
  res : reconcileResult
deriving DecidableEq, Repr

/-- `approveInstallPlan`, as a function of the error returned by `List`,
the listed plans and the error returned by the single `Update` (if one is
issued).  `none` models a Go panic from the `[0]` indexing. -/
def approveInstallPlan (listErr : Option KError) (plans : List InstallPlan)
    (updateErr : Option KError) : Option StepOutcome :=
  match listErr with
  | some e => some ⟨[], reconcileError (some e)⟩
  | none =>
    if plans.length = 0 then some ⟨[], end'⟩
    else
      match scanPlans plans with
      | none => none
      | some .noneFound => some ⟨[], end'⟩
      | some (.alreadyApproved _) => some ⟨[], next'⟩
      | some (.toApprove p) =>
        some ⟨[{ p with approved := true }], updationResult updateErr⟩

/-- The condition the code matches on: the *first* entry of
`ClusterServiceVersionNames` equals the desired CSV and the plan's status
has bundle lookups. -/
def planMatch (p : InstallPlan) : Bool :=
  decide (p.clusterServiceVersionNames.head? = some grafanaCSV) &&
    !(p.bundleLookups.length = 0)

/-- The claim's condition: the target-version list *contains* the desired
CSV, the status is non-empty and the plan is unapproved.  Written from the
spec's words, to be compared with `planMatch`. -/
def claimContainMatch (p : InstallPlan) : Bool :=
  (p.clusterServiceVersionNames.contains grafanaCSV) &&
    !(p.bundleLookups.length = 0) && !p.approved

/-!
## `reconcileSubscription`

Gets the subscription; creates the desired one when absent; when present
with a differing `Spec.StartingCSV` it deletes the subscription, deletes the
CSV named by `Status.InstalledCSV`, and re-creates — note: re-creates the
*fetched* `subscription` object, not `desired`.
-/

/-- `subscriptionName`. -/
def subscriptionName : String := "monitoring-stack-operator-grafana-operator"

/-- The fields of `v1alpha1.Subscription` the step reads:
`Spec.StartingCSV` and `Status.InstalledCSV`. -/
structure Subscription where
  name : String
  startingCSV : String
  installedCSV : String
deriving DecidableEq, Repr

/-- `NewSubscription()`: the desired subscription, pinned to `grafanaCSV`
with an empty status. -/
def NewSubscription : Subscription :=
  { name := subscriptionName, startingCSV := grafanaCSV, installedCSV := "" }

/-- Store calls `reconcileSubscription` can issue. -/
inductive SubscriptionOp where
  | createSub (s : Subscription)
  | deleteSub (name : String)
  | deleteCSV (name : String)
deriving DecidableEq, Repr

/-- The responses of the store for one invocation of
`reconcileSubscription`: the `Get` outcome and the errors of the
`Delete`/`Delete`/`Create` calls (consumed in program order). -/
structure SubscriptionEnv where
  getResult : Except KError Subscription
  deleteSubErr : Option KError
  deleteCSVErr : Option KError
  createErr : Option KError
deriving Repr

/-- `reconcileSubscription`: returns the store calls issued (in order) and
the step's result. -/
def reconcileSubscription (env : SubscriptionEnv) : List SubscriptionOp × reconcileResult :=
  match env.getResult with
  | .error e =>
    if isNotFound e then
      ([.createSub NewSubscription], creationResult env.createErr)
    else
      ([], reconcileError (some e))
  | .ok subscription =>
    if subscription.startingCSV = NewSubscription.startingCSV then
      ([], next')
    else
      match env.deleteSubErr with
      | some e => ([.deleteSub subscription.name], reconcileError (some e))
      | none =>
        match env.deleteCSVErr with
        | some e =>
          ([.deleteSub subscription.name, .deleteCSV subscription.installedCSV],
            reconcileError (some e))
        | none =>
          ([.deleteSub subscription.name, .deleteCSV subscription.installedCSV,
              .createSub subscription],
            creationResult env.createErr)

/-!
## `setGrafanaWatch`

A gate guarded by the process-local `grafanaWatchEstablished` flag: a no-op
once true; while false, a failed `List` probe of the GrafanaDataSource CRD
requeues after 10s without error, a failed `Watch` registration stops with
the error, and success sets the flag and continues.
-/

/-- `setGrafanaWatch`, as a function of the probe (`List`) error, the watch
registration error and the current `grafanaWatchEstablished` flag; returns
the new flag and the step result.  The flag is written nowhere else in the
package. -/
def setGrafanaWatch (listErr watchErr : Option KError) (established : Bool) :
    Bool × reconcileResult :=
  if established then
    (established, next')
  else
    match listErr with
    | some _ => (established, requeue (10 * second) none)
    | none =>
      match watchErr with
      | some e => (established, reconcileError (some e))
      | none => (true, next')

end GrafanaOperator

namespace UIPlugin

/-!
## `computeConfigMapHash` (pkg/controllers/uiplugin/components.go)

Go strings are byte sequences; we model them as `List Nat` (their bytes).
`cm.Data` is a Go map, modelled as an association list whose key list is
duplicate-free (Go maps cannot repeat a key); a permutation of the list is
exactly a different iteration order of the same map.  The function collects
the keys, sorts them (`sort.Strings`: ascending bytewise lexicographic
order), and feeds `key, "\n", value, "\n"` for each key into a 32-bit
FNV-1a hash; the digest is the hex rendering of the final 32-bit sum, so
two digests are equal iff the final sums are equal — we model the digest as
that `Nat`.
-/

/-- A Go string: its sequence of bytes. -/
abbrev GoStr := List Nat

/-- Go's `s1 < s2 || s1 == s2` on strings: bytewise lexicographic
comparison, shorter prefix first.  `sort.Strings` sorts ascending in this
order. -/
def goStrLe : GoStr → GoStr → Bool
  | [], _ => true
  | _ :: _, [] => false
  | a :: as, b :: bs =>
    if a < b then true
    else if b < a then false
    else goStrLe as bs

/-- `goStrLe` as a relation, for the sorting lemmas. -/
def goLe (a b : GoStr) : Prop := goStrLe a b = true

instance : DecidableRel goLe := fun a b => inferInstanceAs (Decidable (goStrLe a b = true))

theorem goStrLe_total : ∀ a b : GoStr, (goStrLe a b || goStrLe b a) = true
  | [], _ => rfl
  | _ :: _, [] => rfl
  | a :: as, b :: bs => by
    by_cases hab : a < b
    · simp [goStrLe, hab]
    · by_cases hba : b < a
      · simp [goStrLe, hab, hba]
      · simpa [goStrLe, hab, hba] using goStrLe_total as bs

theorem goStrLe_trans : ∀ a b c : GoStr,
    goStrLe a b = true → goStrLe b c = true → goStrLe a c = true
  | [], _, _, _, _ => rfl
  | _ :: _, [], _, h, _ => by simp [goStrLe] at h
  | _ :: _, _ :: _, [], _, h => by simp [goStrLe] at h
  | a :: as, b :: bs, c :: cs, hab, hbc => by
    by_cases h1 : a < b
    · by_cases h2 : b < c
      · simp [goStrLe, Nat.lt_trans h1 h2]
      · by_cases h3 : c < b
        · simp [goStrLe, h2, h3] at hbc
        · have hbc' : b = c := Nat.le_antisymm (Nat.ge_of_not_lt h3) (Nat.ge_of_not_lt h2)
          subst hbc'
          simp [goStrLe, h1]
    · by_cases h4 : b < a
      · simp [goStrLe, h1, h4] at hab
      · have hab' : a = b := Nat.le_antisymm (Nat.ge_of_not_lt h4) (Nat.ge_of_not_lt h1)
        subst hab'
        by_cases h2 : a < c
        · simp [goStrLe, h2]
        · by_cases h3 : c < a
          · simp [goStrLe, h2, h3] at hbc
          · have hac : a = c := Nat.le_antisymm (Nat.ge_of_not_lt h3) (Nat.ge_of_not_lt h2)
            subst hac
            have hab2 : goStrLe as bs = true := by
              simpa [goStrLe, Nat.lt_irrefl] using hab
            have hbc2 : goStrLe bs cs = true := by
              simpa [goStrLe, Nat.lt_irrefl] using hbc
            simpa [goStrLe, Nat.lt_irrefl] using goStrLe_trans as bs cs hab2 hbc2

theorem goStrLe_antisymm : ∀ a b : GoStr,
    goStrLe a b = true → goStrLe b a = true → a = b
  | [], [], _, _ => rfl
  | [], _ :: _, _, h => by simp [goStrLe] at h
  | _ :: _, [], h, _ => by simp [goStrLe] at h
  | a :: as, b :: bs, hab, hba => by
    by_cases h1 : a < b
    · simp [goStrLe, h1, Nat.lt_asymm h1] at hba
    · by_cases h2 : b < a
      · simp [goStrLe, h1, h2] at hab
      · have hab' : a = b := Nat.le_antisymm (Nat.ge_of_not_lt h2) (Nat.ge_of_not_lt h1)
        subst hab'
        have h3 := goStrLe_antisymm as bs
          (by simpa [goStrLe, h1] using hab) (by simpa [goStrLe, h1] using hba)
        rw [h3]

instance : IsTotal GoStr goLe := ⟨fun a b => by
  have h := goStrLe_total a b
  rcases Bool.or_eq_true_iff.mp h with h' | h'
  · exact Or.inl h'
  · exact Or.inr h'⟩

instance : IsTrans GoStr goLe := ⟨fun a b c => goStrLe_trans a b c⟩

instance : IsAntisymm GoStr goLe := ⟨fun a b => goStrLe_antisymm a b⟩

/-- `sort.Strings(keys)`: the ascending bytewise-lexicographic sort.
(Any sorting algorithm produces this same list; we use insertion sort.) -/
def sortStrings (keys : List GoStr) : List GoStr := List.insertionSort goLe keys

/-- `hashSeparator = []byte("\n")`. -/
def hashSeparator : List Nat := [10]

/-- `cm.Data[k]` for a map stored as an association list; a missing key
gives the empty string (never hit here: `k` always comes from the map). -/
def dataGet : List (GoStr × GoStr) → GoStr → GoStr
  | [], _ => []
  | (k, v) :: rest, key => if k = key then v else dataGet rest key

/-- The keys of the map, in iteration order. -/
def keysOf (data : List (GoStr × GoStr)) : List GoStr := data.map Prod.fst

/-- One iteration of the write loop:
`h.Write([]byte(k)); h.Write(hashSeparator); h.Write([]byte(cm.Data[k])); h.Write(hashSeparator)`. -/
def entryBytes (data : List (GoStr × GoStr)) (k : GoStr) : List Nat :=
  k ++ hashSeparator ++ dataGet data k ++ hashSeparator

/-- The whole byte stream the loop feeds to the hash, for a given key
order. -/
def writeEntries (data : List (GoStr × GoStr)) : List GoStr → List Nat
  | [] => []
  | k :: ks => entryBytes data k ++ writeEntries data ks

/-- The byte stream `computeConfigMapHash` hashes: entries in sorted key
order. -/
def configMapStream (data : List (GoStr × GoStr)) : List Nat :=
  writeEntries data (sortStrings (keysOf data))

/-- The FNV-1a 32-bit offset basis, `fnv.New32a()`'s initial sum. -/
def fnvOffsetBasis : Nat := 2166136261

/-- The FNV 32-bit prime. -/
def fnvPrime : Nat := 16777619

/-- One byte of FNV-1a: xor, then multiply, in `uint32` arithmetic. -/
def fnv1aStep (h b : Nat) : Nat := ((h ^^^ b) * fnvPrime) % 2 ^ 32

/-- The 32-bit FNV-1a sum of a byte stream. -/
def fnv1a (bs : List Nat) : Nat := bs.foldl fnv1aStep fnvOffsetBasis

/-- `computeConfigMapHash`: the 32-bit FNV-1a sum of the sorted key/value
stream.  (`fmt.Sprintf("%x", h.Sum(nil))` renders this sum in hex; the
rendering is injective on 32-bit sums, so digest equality is sum
equality.) -/
def computeConfigMapHash (data : List (GoStr × GoStr)) : Nat :=
  fnv1a (configMapStream data)

end UIPlugin

namespace GrafanaOperator

/-! ## Pipeline lemmas -/

/-- Steps that perform no writes leave the state alone and the pipeline
returns the first stopping result (or the zero result). -/
theorem runSteps_const (σ : Type) (rs : List reconcileResult) (s : σ) :
    runSteps (rs.map (fun r => constStep r)) s = (s, specPipelineResult rs) := by
  induction rs with
  | nil => simp [runSteps, specPipelineResult]
  | cons r rs ih =>
    by_cases h : r.stop
    · simp [runSteps, constStep, specPipelineResult, List.find?_cons, h]
    · simpa [runSteps, constStep, specPipelineResult, List.find?_cons, h] using ih

/-- Once a prefix of the pipeline stops, appending further steps changes
neither the state nor the result: the later steps never run. -/
theorem runSteps_append_stop (σ : Type) (fs gs : List (Step σ)) (s : σ)
    (h : (runSteps fs s).2.stop = true) :
    runSteps (fs ++ gs) s = runSteps fs s := by
  induction fs generalizing s with
  | nil => simp [runSteps] at h
  | cons f fs ih =>
    by_cases hf : (f s).2.stop
    · simp [runSteps, hf]
    · have h' : (runSteps fs (f s).1).2.stop = true := by
        simpa [runSteps, hf] using h
      simpa [runSteps, hf] using ih (f s).1 h'

/-- C5: the pipeline in `Reconcile` executes steps in order and returns the
first Result with `stop` set — the Result (and error) handed back equal the
spec's first-stop result, the zero Result with nil error when every step
continues — and a stopped pipeline is unaffected by any steps after the
stopping one (they do not run). -/
theorem Reconcile_pipeline_first_stop :
    ∀ (σ : Type) (s : σ) (rs : List reconcileResult) (fs gs : List (Step σ)),
      runSteps (rs.map (fun r => constStep r)) s = (s, specPipelineResult rs) ∧
      Reconcile (rs.map (fun r => constStep r)) s =
        (s, (specPipelineResult rs).result, (specPipelineResult rs).err) ∧
      ((∀ r ∈ rs, r.stop = false) →
        Reconcile (rs.map (fun r => constStep r)) s = (s, {}, none)) ∧
      ((runSteps fs s).2.stop = true → runSteps (fs ++ gs) s = runSteps fs s) := by
  intro σ s rs fs gs
  refine ⟨runSteps_const σ rs s, ?_, ?_, runSteps_append_stop σ fs gs s⟩
  · simp [Reconcile, runSteps_const]
  · intro hall
    have hnone : rs.find? (fun r => r.stop) = none := by
      rw [List.find?_eq_none]
      intro r hr
      simp [hall r hr]
    simp [Reconcile, runSteps_const, specPipelineResult, hnone]

/-- Witness for C5 at a concrete pipeline: the step after a stopping step
never runs. -/
theorem Reconcile_pipeline_first_stop_witness :
    runSteps ([constStep next', constStep end'] ++ [constStep (reconcileError (some .notFound))])
        (0 : Nat) =
      runSteps [constStep next', constStep end'] (0 : Nat) :=
  (Reconcile_pipeline_first_stop Nat 0 [] [constStep next', constStep end']
      [constStep (reconcileError (some .notFound))]).2.2.2 (by decide)

/-! ## Result-constructor claims -/

/-- C6: every `reconcileResult` built by the constructors satisfies the
invariant "if `err` is set then `stop` is true". -/
theorem reconcileResult_constructors_err_implies_stop :
    ∀ (e : Option KError) (d : Nat),
      (errStopInv end' && errStopInv next' && errStopInv (requeue d e) &&
        errStopInv (reconcileError e) && errStopInv (creationResult e) &&
        errStopInv (updationResult e)) = true := by
  intro e d
  rcases e with _ | e
  · simp [errStopInv, end', next', requeue, reconcileError, creationResult, updationResult]
  · rcases e <;>
      simp [errStopInv, end', next', requeue, reconcileError, creationResult,
        updationResult, isAlreadyExists, isConflict]

/-- C7: `updationResult` turns a version-conflict error into stop with
`err = none` and a nonzero (2-second) requeue delay, and any other non-nil
error into stop-with-error. -/
theorem updationResult_conflict_spec :
    ∀ e : KError,
      (isConflict e = true →
        (updationResult (some e)).err = none ∧
        (updationResult (some e)).stop = true ∧
        (updationResult (some e)).result.RequeueAfter = 2 * second ∧
        0 < (updationResult (some e)).result.RequeueAfter) ∧
      (isConflict e = false →
        (updationResult (some e)).stop = true ∧
        (updationResult (some e)).err = some e) := by
  intro e
  constructor
  · intro h
    rcases e <;> simp_all [updationResult, requeue, isConflict, second]
  · intro h
    rcases e <;> simp_all [updationResult, reconcileError, isConflict]

/-- Witness for C7 at the conflict error and at a generic store error. -/
theorem updationResult_conflict_spec_witness :
    ((updationResult (some .conflict)).err = none ∧
      (updationResult (some .conflict)).stop = true ∧
      (updationResult (some .conflict)).result.RequeueAfter = 2 * second ∧
      0 < (updationResult (some .conflict)).result.RequeueAfter) ∧
    ((updationResult (some (.other 0))).stop = true ∧
      (updationResult (some (.other 0))).err = some (.other 0)) :=
  ⟨(updationResult_conflict_spec .conflict).1 rfl,
    (updationResult_conflict_spec (.other 0)).2 rfl⟩

/-- C8: `creationResult` treats success as stop-without-error,
already-exists as a benign continue (no error, no further write by this
constructor), and any other error as stop-with-error. -/
theorem creationResult_spec :
    ∀ e : KError,
      ((creationResult none).stop = true ∧ (creationResult none).err = none) ∧
      (isAlreadyExists e = true →
        creationResult (some e) = next' ∧
        (creationResult (some e)).stop = false ∧
        (creationResult (some e)).err = none) ∧
      (isAlreadyExists e = false →
        (creationResult (some e)).stop = true ∧
        (creationResult (some e)).err = some e) := by
  intro e
  refine ⟨by simp [creationResult, end'], ?_, ?_⟩
  · intro h
    rcases e <;> simp_all [creationResult, next', isAlreadyExists]
  · intro h
    rcases e <;> simp_all [creationResult, reconcileError, isAlreadyExists]

/-- Witness for C8 at the already-exists error and at a generic store
error. -/
theorem creationResult_spec_witness :
    (creationResult (some .alreadyExists) = next' ∧
      (creationResult (some .alreadyExists)).stop = false ∧
      (creationResult (some .alreadyExists)).err = none) ∧
    ((creationResult (some (.other 7))).stop = true ∧
      (creationResult (some (.other 7))).err = some (.other 7)) :=
  ⟨(creationResult_spec .alreadyExists).2.1 rfl,
    (creationResult_spec (.other 7)).2.2 rfl⟩

/-! ## Watch gate -/

/-- C9: `setGrafanaWatch` is a no-op continue once the flag is true; while
false, a failed probe requeues after 10s without error and leaves the flag
false, a failed watch registration stops with the error, and success sets
the flag and continues; the flag becomes true only through a fully
successful pass and is never reset. -/
theorem setGrafanaWatch_spec :
    ∀ (listErr watchErr : Option KError) (b : Bool),
      (b = true → setGrafanaWatch listErr watchErr b = (true, next')) ∧
      (b = false → listErr.isSome = true →
        (setGrafanaWatch listErr watchErr b).1 = false ∧
        (setGrafanaWatch listErr watchErr b).2.err = none ∧
        (setGrafanaWatch listErr watchErr b).2.stop = true ∧
        (setGrafanaWatch listErr watchErr b).2.result.RequeueAfter = 10 * second) ∧
      (b = false → listErr = none → ∀ e, watchErr = some e →
        setGrafanaWatch listErr watchErr b = (false, reconcileError (some e))) ∧
      (b = false → listErr = none → watchErr = none →
        setGrafanaWatch listErr watchErr b = (true, next')) ∧
      ((setGrafanaWatch listErr watchErr b).1 = true →
        b = true ∨ (listErr = none ∧ watchErr = none)) ∧
      (b = true → (setGrafanaWatch listErr watchErr b).1 = true) := by
  intro listErr watchErr b
  rcases b <;> rcases listErr <;> rcases watchErr <;>
    simp [setGrafanaWatch, requeue, reconcileError, next', second]

/-- Witness for C9 at each concrete gate situation. -/
theorem setGrafanaWatch_spec_witness :
    setGrafanaWatch (some .notFound) none true = (true, next') ∧
    ((setGrafanaWatch (some .notFound) none false).1 = false ∧
      (setGrafanaWatch (some .notFound) none false).2.err = none ∧
      (setGrafanaWatch (some .notFound) none false).2.stop = true ∧
      (setGrafanaWatch (some .notFound) none false).2.result.RequeueAfter = 10 * second) ∧
    setGrafanaWatch none (some (.other 3)) false = (false, reconcileError (some (.other 3))) ∧
    setGrafanaWatch none none false = (true, next') :=
  ⟨(setGrafanaWatch_spec (some .notFound) none true).1 rfl,
    (setGrafanaWatch_spec (some .notFound) none false).2.1 rfl rfl,
    (setGrafanaWatch_spec none (some (.other 3)) false).2.2.1 rfl rfl (.other 3) rfl,
    (setGrafanaWatch_spec none none false).2.2.2.1 rfl rfl rfl⟩

/-! ## Install-plan scan lemmas -/

/-- A plan with a first CSV entry that gets skipped by the loop is exactly a
plan with `planMatch = false`. -/
theorem planMatch_false_of_skip {p : InstallPlan} {csv : String} {rest : List String}
    (hcsv : p.clusterServiceVersionNames = csv :: rest)
    (h : csv ≠ grafanaCSV ∨ p.bundleLookups.length = 0) :
    planMatch p = false := by
  simp only [planMatch, hcsv, List.head?_cons, Bool.and_eq_false_iff]
  rcases h with h | h
  · left
    simpa using h
  · right
    simp [h]

/-- A plan the loop does not skip has `planMatch = true`. -/
theorem planMatch_true_of_no_skip {p : InstallPlan} {csv : String} {rest : List String}
    (hcsv : p.clusterServiceVersionNames = csv :: rest)
    (h : ¬(csv ≠ grafanaCSV ∨ p.bundleLookups.length = 0)) :
    planMatch p = true := by
  push_neg at h
  simp [planMatch, hcsv, h.1, h.2]

/-- Unfolding of one loop iteration whose plan has a first CSV entry. -/
theorem scanPlans_cons {p : InstallPlan} {ps : List InstallPlan} {csv : String}
    {rest : List String} (hcsv : p.clusterServiceVersionNames = csv :: rest) :
    scanPlans (p :: ps) =
      if csv ≠ grafanaCSV ∨ p.bundleLookups.length = 0 then scanPlans ps
      else if p.approved then some (.alreadyApproved p) else some (.toApprove p) := by
  simp only [scanPlans, hcsv]

/-- Unfolding of one loop iteration whose plan has no CSV entries: the `[0]`
indexing panics. -/
theorem scanPlans_cons_nil {p : InstallPlan} {ps : List InstallPlan}
    (hcsv : p.clusterServiceVersionNames = []) :
    scanPlans (p :: ps) = none := by
  simp only [scanPlans, hcsv]

/-- The scan never panics when every listed plan has a non-empty
`ClusterServiceVersionNames`. -/
theorem scanPlans_isSome (plans : List InstallPlan)
    (h : ∀ p ∈ plans, p.clusterServiceVersionNames ≠ []) :
    (scanPlans plans).isSome = true := by
  induction plans with
  | nil => rfl
  | cons p ps ih =>
    have hp := h p (List.mem_cons_self p ps)
    cases hcsv : p.clusterServiceVersionNames with
    | nil => exact absurd hcsv hp
    | cons csv rest =>
      rw [scanPlans_cons hcsv]
      by_cases hc : csv ≠ grafanaCSV ∨ p.bundleLookups.length = 0
      · rw [if_pos hc]
        exact ih fun q hq => h q (List.mem_cons_of_mem p hq)
      · rw [if_neg hc]
        by_cases ha : p.approved <;> simp [ha]

/-- If the scan falls through without finding a plan, no listed plan
matches. -/
theorem scanPlans_noneFound (plans : List InstallPlan)
    (h : scanPlans plans = some .noneFound) :
    ∀ p ∈ plans, planMatch p = false := by
  induction plans with
  | nil => simp
  | cons p ps ih =>
    cases hcsv : p.clusterServiceVersionNames with
    | nil => rw [scanPlans_cons_nil hcsv] at h; exact absurd h (by simp)
    | cons csv rest =>
      rw [scanPlans_cons hcsv] at h
      by_cases hc : csv ≠ grafanaCSV ∨ p.bundleLookups.length = 0
      · rw [if_pos hc] at h
        intro q hq
        rcases List.mem_cons.mp hq with hq | hq
        · exact hq ▸ planMatch_false_of_skip hcsv hc
        · exact ih h q hq
      · rw [if_neg hc] at h
        by_cases ha : p.approved <;> simp [ha] at h

/-- If the scan picks `p` for approval, `p` is the first matching plan, it
is unapproved, and every earlier plan fails the match test. -/
theorem scanPlans_toApprove (plans : List InstallPlan) (p : InstallPlan)
    (h : scanPlans plans = some (.toApprove p)) :
    ∃ l1 l2, plans = l1 ++ p :: l2 ∧ planMatch p = true ∧ p.approved = false ∧
      ∀ q ∈ l1, planMatch q = false := by
  induction plans with
  | nil => exact absurd h (by simp [scanPlans])
  | cons q ps ih =>
    cases hcsv : q.clusterServiceVersionNames with
    | nil => rw [scanPlans_cons_nil hcsv] at h; exact absurd h (by simp)
    | cons csv rest =>
      rw [scanPlans_cons hcsv] at h
      by_cases hc : csv ≠ grafanaCSV ∨ q.bundleLookups.length = 0
      · rw [if_pos hc] at h
        obtain ⟨l1, l2, hps, hm, ha, hskip⟩ := ih h
        refine ⟨q :: l1, l2, by simp [hps], hm, ha, ?_⟩
        intro r hr
        rcases List.mem_cons.mp hr with hr | hr
        · exact hr ▸ planMatch_false_of_skip hcsv hc
        · exact hskip r hr
      · rw [if_neg hc] at h
        by_cases ha : q.approved
        · rw [if_pos ha] at h
          exact absurd h (by simp)
        · rw [if_neg ha] at h
          have hp : p = q := by
            have := h
            simp at this
            exact this.symm
          subst hp
          exact ⟨[], ps, rfl, planMatch_true_of_no_skip hcsv hc, by simp [ha], by simp⟩

/-- If the scan stops at an already-approved plan `p`, that plan is the
first matching one and it is approved. -/
theorem scanPlans_alreadyApproved (plans : List InstallPlan) (p : InstallPlan)
    (h : scanPlans plans = some (.alreadyApproved p)) :
    ∃ l1 l2, plans = l1 ++ p :: l2 ∧ planMatch p = true ∧ p.approved = true ∧
      ∀ q ∈ l1, planMatch q = false := by
  induction plans with
  | nil => exact absurd h (by simp [scanPlans])
  | cons q ps ih =>
    cases hcsv : q.clusterServiceVersionNames with
    | nil => rw [scanPlans_cons_nil hcsv] at h; exact absurd h (by simp)
    | cons csv rest =>
      rw [scanPlans_cons hcsv] at h
      by_cases hc : csv ≠ grafanaCSV ∨ q.bundleLookups.length = 0
      · rw [if_pos hc] at h
        obtain ⟨l1, l2, hps, hm, ha, hskip⟩ := ih h
        refine ⟨q :: l1, l2, by simp [hps], hm, ha, ?_⟩
        intro r hr
        rcases List.mem_cons.mp hr with hr | hr
        · exact hr ▸ planMatch_false_of_skip hcsv hc
        · exact hskip r hr
      · rw [if_neg hc] at h
        by_cases ha : q.approved
        · rw [if_pos ha] at h
          have hp : q = p := by
            have h' := h
            simp at h'
            exact h'
          subst hp
          exact ⟨[], ps, rfl, planMatch_true_of_no_skip hcsv hc, by simp [ha], by simp⟩
        · rw [if_neg ha] at h
          exact absurd h (by simp)

/-- Two decompositions of one plan list around a first matching plan agree
on that plan. -/
theorem first_match_unique :
    ∀ (l1 : List InstallPlan) (p : InstallPlan) (l2 m1 : List InstallPlan)
      (q : InstallPlan) (m2 : List InstallPlan),
      l1 ++ p :: l2 = m1 ++ q :: m2 →
      (∀ r ∈ l1, planMatch r = false) → planMatch p = true →
      (∀ r ∈ m1, planMatch r = false) → planMatch q = true →
      p = q
  | [], p, l2, [], q, m2, heq, _, _, _, _ => by
    simpa using congrArg (fun l => l.head?) heq
  | [], p, l2, r :: m1', q, m2, heq, _, hp, hskip2, _ => by
    have : p = r := by simpa using congrArg (fun l => l.head?) heq
    rw [this] at hp
    rw [hskip2 r (List.mem_cons_self r m1')] at hp
    exact absurd hp (by simp)
  | r :: l1', p, l2, [], q, m2, heq, hskip1, _, _, hq => by
    have : r = q := by simpa using congrArg (fun l => l.head?) heq
    rw [← this] at hq
    rw [hskip1 r (List.mem_cons_self r l1')] at hq
    exact absurd hq (by simp)
  | r :: l1', p, l2, r' :: m1', q, m2, heq, hskip1, hp, hskip2, hq => by
    have htl : l1' ++ p :: l2 = m1' ++ q :: m2 := by
      simpa using congrArg (fun l => l.tail) heq
    exact first_match_unique l1' p l2 m1' q m2 htl
      (fun s hs => hskip1 s (List.mem_cons_of_mem r hs)) hp
      (fun s hs => hskip2 s (List.mem_cons_of_mem r' hs)) hq

/-- Conversely, when some plan is the first match and the scan completes
without a panic, the scan resolves that plan. -/
theorem scanPlans_first_match (l1 : List InstallPlan) (p : InstallPlan) (l2 : List InstallPlan)
    (hsome : (scanPlans (l1 ++ p :: l2)).isSome = true)
    (hskip : ∀ q ∈ l1, planMatch q = false)
    (hm : planMatch p = true) :
    scanPlans (l1 ++ p :: l2) =
      if p.approved then some (.alreadyApproved p) else some (.toApprove p) := by
  induction l1 with
  | nil =>
    cases hcsv : p.clusterServiceVersionNames with
    | nil => simp [planMatch, hcsv] at hm
    | cons csv rest =>
      have hc : ¬(csv ≠ grafanaCSV ∨ p.bundleLookups.length = 0) := by
        simp only [planMatch, hcsv, List.head?_cons, Bool.and_eq_true] at hm
        push_neg
        refine ⟨by simpa using hm.1, by simpa using hm.2⟩
      rw [List.nil_append, scanPlans_cons hcsv, if_neg hc]
  | cons q l1' ih =>
    have hq := hskip q (List.mem_cons_self q l1')
    cases hcsv : q.clusterServiceVersionNames with
    | nil =>
      rw [List.cons_append, scanPlans_cons_nil hcsv] at hsome
      exact absurd hsome (by simp)
    | cons csv rest =>
      have hc : csv ≠ grafanaCSV ∨ q.bundleLookups.length = 0 := by
        by_contra hc
        rw [planMatch_true_of_no_skip hcsv hc] at hq
        simp at hq
      rw [List.cons_append, scanPlans_cons hcsv, if_pos hc] at hsome ⊢
      exact ih hsome fun r hr => hskip r (List.mem_cons_of_mem q hr)

/-- Unfolding of the step after a successful `List` of a non-empty plan
list. -/
theorem approveInstallPlan_scan_eq (plans : List InstallPlan) (updateErr : Option KError)
    (hlen : ¬plans.length = 0) :
    approveInstallPlan none plans updateErr =
      match scanPlans plans with
      | none => none
      | some .noneFound => some ⟨[], end'⟩
      | some (.alreadyApproved _) => some ⟨[], next'⟩
      | some (.toApprove p) =>
        some ⟨[{ p with approved := true }], updationResult updateErr⟩ := by
  simp only [approveInstallPlan, if_neg hlen]

/-! ## C10: totality of `approveInstallPlan` -/

/-- C10: the step cannot panic when every listed plan has a non-empty
`ClusterServiceVersionNames`; with a plan whose list is empty, the `[0]`
indexing panics. -/
theorem approveInstallPlan_totality :
    (∀ (listErr updateErr : Option KError) (plans : List InstallPlan),
      (∀ p ∈ plans, p.clusterServiceVersionNames ≠ []) →
      (approveInstallPlan listErr plans updateErr).isSome = true) ∧
    approveInstallPlan none [⟨"broken", [], false, []⟩] none = none := by
  constructor
  · intro listErr updateErr plans h
    rcases listErr with _ | e
    · by_cases hlen : plans.length = 0
      · simp only [approveInstallPlan, if_pos hlen]
        rfl
      · rw [approveInstallPlan_scan_eq plans updateErr hlen]
        have hscan := scanPlans_isSome plans h
        rcases hsome : scanPlans plans with _ | out
        · rw [hsome] at hscan
          simp at hscan
        · rcases out <;> simp
    · simp [approveInstallPlan]
  · rfl

/-- Witness for C10: a list whose plans all carry CSV names never
panics. -/
theorem approveInstallPlan_totality_witness :
    (approveInstallPlan none
      [⟨"plan-a", ["other-operator.v1.0.0"], false, []⟩,
        ⟨"plan-b", [grafanaCSV], false, ["lookup"]⟩] none).isSome = true :=
  approveInstallPlan_totality.1 none none _ (by decide)

/-! ## C1: which plan the step approves -/

/-- C1 counterexample to the claim as stated: in this list the first plan
whose target-version list *contains* the desired CSV (with non-empty status
and unapproved) is `plan-a`, yet the step updates `plan-b` — the code
compares only entry `[0]`, not membership. -/
theorem approveInstallPlan_contains_counterexample :
    claimContainMatch ⟨"plan-a", ["other-operator.v1.0.0", grafanaCSV], false, ["bl"]⟩ = true ∧
    approveInstallPlan none
      [⟨"plan-a", ["other-operator.v1.0.0", grafanaCSV], false, ["bl"]⟩,
        ⟨"plan-b", [grafanaCSV], false, ["bl"]⟩] none =
      some ⟨[⟨"plan-b", [grafanaCSV], true, ["bl"]⟩], next'⟩ := by
  decide

/-- C1 (amended): in a completed (panic-free) run with a successful List,
the step issues at most one update; any update targets the first plan whose
*first* CSV entry equals the desired CSV and whose status is non-empty,
flipping `Spec.Approved` of an unapproved plan; when no plan matches, no
write is issued and the step ends without error; and the first unapproved
match (all earlier plans failing the test) is exactly the plan updated. -/
theorem approveInstallPlan_first_match_spec :
    ∀ (plans : List InstallPlan) (updateErr : Option KError) (out : StepOutcome),
      approveInstallPlan none plans updateErr = some out →
      (out.updates.length ≤ 1) ∧
      (∀ p' ∈ out.updates, p'.approved = true ∧
        ∃ l1 p l2, plans = l1 ++ p :: l2 ∧ p' = { p with approved := true } ∧
          planMatch p = true ∧ p.approved = false ∧
          ∀ q ∈ l1, planMatch q = false) ∧
      ((∀ p ∈ plans, planMatch p = false) → out = ⟨[], end'⟩) ∧
      (∀ l1 p l2, plans = l1 ++ p :: l2 → (∀ q ∈ l1, planMatch q = false) →
        planMatch p = true → p.approved = false →
        out = ⟨[{ p with approved := true }], updationResult updateErr⟩) := by
  intro plans updateErr out h
  by_cases hlen : plans.length = 0
  · rw [List.length_eq_zero] at hlen
    subst hlen
    have hout : out = ⟨[], end'⟩ :=
      (Option.some.inj ((rfl : approveInstallPlan none [] updateErr = some ⟨[], end'⟩).symm.trans h)).symm
    subst hout
    refine ⟨by simp, by simp, fun _ => rfl, ?_⟩
    intro l1 p l2 heq
    exact absurd heq.symm (by simp)
  · rw [approveInstallPlan_scan_eq plans updateErr hlen] at h
    rcases hscan : scanPlans plans with _ | sc
    · rw [hscan] at h
      exact absurd h (by simp)
    · rcases sc with p | p | _
      · -- already approved: no write, continue
        rw [hscan] at h
        have hout : out = ⟨[], next'⟩ := (Option.some.inj h).symm
        subst hout
        refine ⟨by simp, by simp, ?_, ?_⟩
        · intro hall
          -- the scan stopped at an approved matching plan: contradiction
          exfalso
          obtain ⟨l1, l2, hpl, hm, -⟩ := scanPlans_alreadyApproved plans p hscan
          rw [hall p (hpl ▸ List.mem_append_right l1 (List.mem_cons_self p l2))] at hm
          simp at hm
        · intro l1 q l2 heq hskip hm ha
          exfalso
          obtain ⟨m1, m2, hpl, hm', ha', hskip'⟩ := scanPlans_alreadyApproved plans p hscan
          -- `p` and `q` are both the first match, so they coincide;
          -- but one is approved and the other is not
          have := first_match_unique l1 q l2 m1 p m2 (heq.symm.trans hpl) hskip hm hskip' hm'
          rw [this] at ha
          rw [ha] at ha'
          simp at ha'
      · -- unapproved match: one update
        rw [hscan] at h
        have hout : out = ⟨[{ p with approved := true }], updationResult updateErr⟩ :=
          (Option.some.inj h).symm
        subst hout
        obtain ⟨l1, l2, hpl, hm, ha, hskip⟩ := scanPlans_toApprove plans p hscan
        refine ⟨by simp, ?_, ?_, ?_⟩
        · intro p' hp'
          have hp'' : p' = { p with approved := true } := by simpa using hp'
          subst hp''
          exact ⟨rfl, l1, p, l2, hpl, rfl, hm, ha, hskip⟩
        · intro hall
          exfalso
          rw [hall p (hpl ▸ List.mem_append_right l1 (List.mem_cons_self p l2))] at hm
          simp at hm
        · intro m1 q m2 heq hskip' hm' _
          rw [first_match_unique m1 q m2 l1 p l2 (heq.symm.trans hpl) hskip' hm' hskip hm]
      · -- fell through: no match among the listed plans
        rw [hscan] at h
        have hout : out = ⟨[], end'⟩ := (Option.some.inj h).symm
        subst hout
        refine ⟨by simp, by simp, fun _ => rfl, ?_⟩
        intro l1 p l2 heq hskip hm ha
        exfalso
        have := scanPlans_noneFound plans hscan p
          (heq ▸ List.mem_append_right l1 (List.mem_cons_self p l2))
        rw [this] at hm
        simp at hm

/-- Witness for C1 on concrete plan lists: the all-skipped wait case (a
matching plan with empty status plus a non-matching plan) and the
first-unapproved-match case. -/
theorem approveInstallPlan_first_match_spec_witness :
    ((⟨[], end'⟩ : StepOutcome) = ⟨[], end'⟩) ∧
    approveInstallPlan none
        [⟨"stale", ["other-operator.v1.0.0"], false, ["bl"]⟩,
          ⟨"target", [grafanaCSV], false, ["bl"]⟩] none =
      some ⟨[⟨"target", [grafanaCSV], true, ["bl"]⟩], updationResult none⟩ := by
  constructor
  · exact (approveInstallPlan_first_match_spec
      [⟨"empty-status", [grafanaCSV], false, []⟩,
        ⟨"other", ["other-operator.v1.0.0"], false, ["bl"]⟩] none ⟨[], end'⟩
      (by decide)).2.2.1 (by decide)
  · have h := (approveInstallPlan_first_match_spec
      [⟨"stale", ["other-operator.v1.0.0"], false, ["bl"]⟩,
        ⟨"target", [grafanaCSV], false, ["bl"]⟩] none
      ⟨[⟨"target", [grafanaCSV], true, ["bl"]⟩], updationResult none⟩
      (by decide)).2.2.2
      [⟨"stale", ["other-operator.v1.0.0"], false, ["bl"]⟩]
      ⟨"target", [grafanaCSV], false, ["bl"]⟩ [] rfl (by decide) (by decide) rfl
    decide

/-! ## C2: what happens after a successful approval update -/

/-- C2 counterexample to the claim as stated: with one unapproved matching
plan and a successful update, the step's result is `next()` — `stop` is
false — and the pipeline does *not* halt: a step placed after it still runs
(here: the pipeline's result is that later step's). -/
theorem approveInstallPlan_update_success_counterexample :
    approveInstallPlan none [⟨"plan-b", [grafanaCSV], false, ["bl"]⟩] none =
      some ⟨[⟨"plan-b", [grafanaCSV], true, ["bl"]⟩], updationResult none⟩ ∧
    (updationResult none).stop = false ∧
    (runSteps [constStep (updationResult none), constStep end'] ()).2 = end' := by
  decide

/-- C2 (amended): when the approval update to the store succeeds, the
step's result is `next()` with `stop = false`, so the pipeline continues
and the steps after `approveInstallPlan` run in the same invocation. -/
theorem approveInstallPlan_update_success_continues :
    ∀ (plans : List InstallPlan) (out : StepOutcome),
      approveInstallPlan none plans none = some out →
      out.updates ≠ [] →
      out.res = next' ∧ out.res.stop = false ∧
      (∀ (σ : Type) (fs : List (Step σ)) (s : σ) (f : Step σ),
        f s = (s, out.res) → runSteps (f :: fs) s = runSteps fs s) := by
  intro plans out h hup
  by_cases hlen : plans.length = 0
  · rw [List.length_eq_zero] at hlen
    subst hlen
    have hout : out = ⟨[], end'⟩ :=
      (Option.some.inj ((rfl : approveInstallPlan none [] none = some ⟨[], end'⟩).symm.trans h)).symm
    rw [hout] at hup
    exact absurd rfl hup
  · rw [approveInstallPlan_scan_eq plans none hlen] at h
    rcases hscan : scanPlans plans with _ | sc
    · rw [hscan] at h
      exact absurd h (by simp)
    · rcases sc with p | p | _ <;> rw [hscan] at h
      · rw [(Option.some.inj h).symm] at hup
        exact absurd rfl hup
      · have hout : out = ⟨[{ p with approved := true }], updationResult none⟩ :=
          (Option.some.inj h).symm
        subst hout
        refine ⟨rfl, rfl, ?_⟩
        intro σ fs s f hf
        simp [runSteps, hf, updationResult, next']
      · rw [(Option.some.inj h).symm] at hup
        exact absurd rfl hup

/-- Witness for C2 on a concrete plan list and pipeline. -/
theorem approveInstallPlan_update_success_continues_witness :
    ((⟨[⟨"solo", [grafanaCSV], true, ["bl"]⟩], updationResult none⟩ : StepOutcome).res = next' ∧
      (⟨[⟨"solo", [grafanaCSV], true, ["bl"]⟩], updationResult none⟩ : StepOutcome).res.stop = false ∧
      (∀ (σ : Type) (fs : List (Step σ)) (s : σ) (f : Step σ),
        f s = (s, (⟨[⟨"solo", [grafanaCSV], true, ["bl"]⟩], updationResult none⟩ : StepOutcome).res) →
        runSteps (f :: fs) s = runSteps fs s)) :=
  approveInstallPlan_update_success_continues
    [⟨"solo", [grafanaCSV], false, ["bl"]⟩]
    ⟨[⟨"solo", [grafanaCSV], true, ["bl"]⟩], updationResult none⟩
    (by decide) (by decide)

/-! ## C3: subscription replacement -/

/-- C3: with an existing subscription pinned to the stale
`grafana-operator.v4.0.0`, the step deletes the subscription and the CSV
named by its `Status.InstalledCSV`, but the `Create` it then issues carries
the *fetched* subscription — whose `StartingCSV` is still the stale
version, not the desired `grafanaCSV`. -/
theorem reconcileSubscription_stale_recreates_fetched :
    reconcileSubscription
        ⟨.ok ⟨subscriptionName, "grafana-operator.v4.0.0", "grafana-operator.v4.0.0"⟩,
          none, none, none⟩ =
      ([.deleteSub subscriptionName, .deleteCSV "grafana-operator.v4.0.0",
          .createSub ⟨subscriptionName, "grafana-operator.v4.0.0", "grafana-operator.v4.0.0"⟩],
        end') ∧
    ("grafana-operator.v4.0.0" : String) ≠ grafanaCSV ∧
    NewSubscription.startingCSV = grafanaCSV := by
  refine ⟨rfl, ?_, rfl⟩
  decide

end GrafanaOperator

namespace UIPlugin

/-! ## Hash lemmas for C4 -/

/-- Sorting is order-insensitive: permuted key lists sort to the same
list. -/
theorem sortStrings_eq_of_perm {l1 l2 : List GoStr} (h : l1.Perm l2) :
    sortStrings l1 = sortStrings l2 :=
  List.eq_of_perm_of_sorted
    ((List.perm_insertionSort goLe l1).trans (h.trans (List.perm_insertionSort goLe l2).symm))
    (List.sorted_insertionSort goLe l1)
    (List.sorted_insertionSort goLe l2)

/-- A key outside the map reads the empty string. -/
theorem dataGet_not_mem : ∀ (d : List (GoStr × GoStr)) (k : GoStr),
    k ∉ keysOf d → dataGet d k = []
  | [], _, _ => rfl
  | (k0, v0) :: rest, k, h => by
    have hk0 : k0 ≠ k := fun he => h (he ▸ List.mem_cons_self k0 (keysOf rest))
    have hrest : k ∉ keysOf rest := fun hm => h (List.mem_cons_of_mem k0 hm)
    simp only [dataGet, if_neg hk0]
    exact dataGet_not_mem rest k hrest

/-- In a map with duplicate-free keys, membership determines the lookup. -/
theorem dataGet_mem : ∀ (d : List (GoStr × GoStr)) (k v : GoStr),
    (keysOf d).Nodup → (k, v) ∈ d → dataGet d k = v
  | [], _, _, _, hm => absurd hm (List.not_mem_nil _)
  | (k0, v0) :: rest, k, v, hnd, hm => by
    rcases List.mem_cons.mp hm with hm | hm
    · cases hm
      simp [dataGet]
    · have hk0 : k0 ≠ k := by
        intro he
        subst he
        have : k0 ∈ keysOf rest := List.mem_map.mpr ⟨(k0, v), hm, rfl⟩
        exact (List.nodup_cons.mp hnd).1 this
      simp only [dataGet, if_neg hk0]
      exact dataGet_mem rest k v (List.nodup_cons.mp hnd).2 hm

/-- Two iteration orders of one map agree on every lookup. -/
theorem dataGet_eq_of_perm {d1 d2 : List (GoStr × GoStr)} (h : d1.Perm d2)
    (hnd : (keysOf d1).Nodup) (k : GoStr) : dataGet d1 k = dataGet d2 k := by
  have hkeys : (keysOf d1).Perm (keysOf d2) := h.map Prod.fst
  by_cases hk : k ∈ keysOf d1
  · obtain ⟨⟨k', v⟩, hmem, hfst⟩ := List.mem_map.mp hk
    have hmem' : (k, v) ∈ d1 := by
      rw [← hfst]
      exact hmem
    rw [dataGet_mem d1 k v hnd hmem',
      dataGet_mem d2 k v (hkeys.nodup_iff.mp hnd) (h.mem_iff.mp hmem')]
  · rw [dataGet_not_mem d1 k hk, dataGet_not_mem d2 k fun hm => hk (hkeys.mem_iff.mpr hm)]

/-- Writing the entries of two maps that agree on the keys written produces
the same byte stream. -/
theorem writeEntries_congr (d1 d2 : List (GoStr × GoStr)) :
    ∀ ks : List GoStr, (∀ k ∈ ks, dataGet d1 k = dataGet d2 k) →
      writeEntries d1 ks = writeEntries d2 ks
  | [], _ => rfl
  | k :: ks, h => by
    simp only [writeEntries, entryBytes, h k (List.mem_cons_self k ks)]
    rw [writeEntries_congr d1 d2 ks fun k' hk' => h k' (List.mem_cons_of_mem k hk')]

/-- The write loop distributes over key-list concatenation. -/
theorem writeEntries_append (d : List (GoStr × GoStr)) :
    ∀ xs ys : List GoStr,
      writeEntries d (xs ++ ys) = writeEntries d xs ++ writeEntries d ys
  | [], ys => rfl
  | x :: xs, ys => by
    simp only [List.cons_append, writeEntries, List.append_eq]
    rw [writeEntries_append d xs ys, List.append_assoc]

/-- The key list of a map with one value modified. -/
theorem keysOf_middle (l1 l2 : List (GoStr × GoStr)) (k x : GoStr) :
    keysOf (l1 ++ (k, x) :: l2) = keysOf l1 ++ k :: keysOf l2 := by
  simp [keysOf]

/-- Lookups away from the modified key are unchanged. -/
theorem dataGet_other : ∀ (l1 : List (GoStr × GoStr)) (l2 : List (GoStr × GoStr))
    (k v v' a : GoStr), a ≠ k →
    dataGet (l1 ++ (k, v) :: l2) a = dataGet (l1 ++ (k, v') :: l2) a
  | [], l2, k, v, v', a, ha => by
    simp only [List.nil_append, dataGet, if_neg (Ne.symm ha)]
  | (k0, v0) :: l1, l2, k, v, v', a, ha => by
    by_cases h0 : k0 = a
    · simp [dataGet, h0]
    · simp only [List.cons_append, dataGet, if_neg h0]
      exact dataGet_other l1 l2 k v v' a ha

/-- C4 (amended): hashing the same key/value set in any iteration order
yields an identical digest; and changing a single value changes the byte
stream fed to the hash (the 32-bit digest itself can collide, see the
counterexample). -/
theorem computeConfigMapHash_spec :
    (∀ d1 d2 : List (GoStr × GoStr), (keysOf d1).Nodup → d1.Perm d2 →
      computeConfigMapHash d1 = computeConfigMapHash d2) ∧
    (∀ (l1 l2 : List (GoStr × GoStr)) (k v v' : GoStr),
      (keysOf (l1 ++ (k, v) :: l2)).Nodup → v ≠ v' →
      configMapStream (l1 ++ (k, v) :: l2) ≠ configMapStream (l1 ++ (k, v') :: l2)) := by
  constructor
  · intro d1 d2 hnd hperm
    have hkeys : (keysOf d1).Perm (keysOf d2) := hperm.map Prod.fst
    unfold computeConfigMapHash configMapStream
    rw [sortStrings_eq_of_perm hkeys,
      writeEntries_congr d1 d2 _ fun k _ => dataGet_eq_of_perm hperm hnd k]
  · intro l1 l2 k v v' hnd hvv heq
    set d := l1 ++ (k, v) :: l2 with hd
    set d' := l1 ++ (k, v') :: l2 with hd'
    have hkeys : keysOf d = keysOf d' := by
      rw [hd, hd', keysOf_middle, keysOf_middle]
    have hks_perm := List.perm_insertionSort goLe (keysOf d)
    have hks_nodup : (sortStrings (keysOf d)).Nodup := hks_perm.nodup_iff.mpr hnd
    have hkmem : k ∈ sortStrings (keysOf d) := by
      apply hks_perm.mem_iff.mpr
      rw [hd, keysOf_middle]
      exact List.mem_append_right _ (List.mem_cons_self k _)
    obtain ⟨A, B, hAB⟩ := List.mem_iff_append.mp hkmem
    rw [hAB] at hks_nodup
    obtain ⟨hndA, hndB, hdisj⟩ := List.nodup_append.mp hks_nodup
    have hkA : k ∉ A := fun hin => hdisj hin (List.mem_cons_self k B)
    have hkB : k ∉ B := (List.nodup_cons.mp hndB).1
    have hother : ∀ a, a ≠ k → dataGet d a = dataGet d' a := fun a ha =>
      dataGet_other l1 l2 k v v' a ha
    have hv : dataGet d k = v :=
      dataGet_mem d k v hnd (List.mem_append_right _ (List.mem_cons_self _ _))
    have hv' : dataGet d' k = v' :=
      dataGet_mem d' k v' (hkeys ▸ hnd)
        (List.mem_append_right _ (List.mem_cons_self _ _))
    have hWA : writeEntries d A = writeEntries d' A :=
      writeEntries_congr d d' A fun a hin =>
        hother a (fun he => hkA (he ▸ hin))
    have hWB : writeEntries d B = writeEntries d' B :=
      writeEntries_congr d d' B fun a hin =>
        hother a (fun he => hkB (he ▸ hin))
    rw [configMapStream, configMapStream, ← hkeys, hAB, writeEntries_append,
      writeEntries_append] at heq
    simp only [writeEntries, entryBytes, hv, hv', hWA, hWB, List.append_assoc] at heq
    have h1 := List.append_cancel_left heq
    have h2 := List.append_cancel_left h1
    have h3 := List.append_cancel_left h2
    exact hvv (List.append_cancel_right h3)

/-- Witness for C4: a two-key map hashed in both orders, and a one-key map
whose value change alters the stream. -/
theorem computeConfigMapHash_spec_witness :
    computeConfigMapHash [([97], [49]), ([98], [50])] =
      computeConfigMapHash [([98], [50]), ([97], [49])] ∧
    configMapStream [([97], [49])] ≠ configMapStream [([97], [50])] :=
  ⟨computeConfigMapHash_spec.1 [([97], [49]), ([98], [50])] [([98], [50]), ([97], [49])]
      (by decide) (by decide),
    computeConfigMapHash_spec.2 [] [] [97] [49] [50] (by decide) (by decide)⟩

/-- C4 counterexample to the claim as stated: these two maps hold the same
single key `"k"` with two different values, yet `computeConfigMapHash`
returns the same digest — a 32-bit FNV-1a collision — so changing a single
value does not always change the digest. -/
theorem computeConfigMapHash_single_value_collision :
    ([118, 53, 51, 57, 53, 57, 57] : GoStr) ≠ [118, 55, 50, 50, 51, 56, 50] ∧
    computeConfigMapHash [([107], [118, 53, 51, 57, 53, 57, 57])] =
      computeConfigMapHash [([107], [118, 55, 50, 50, 51, 56, 50])] := by
  decide

end UIPlugin
